import Mathlib

/-!
Verification of the `mikro-orm-strict` schema-driven validation engine.

The repository ships the runtime engine in `src/index.ts`; the published
sources here contain its test suite, its driver type declarations and its
build script, so the engine itself is reconstructed below from the design
document (spec.md) and pinned by the behaviour the test suite asserts.
The embedding is shallow: schemas, record instances, errors and the two
core algorithms (flush-state validation and depth-bounded field-path
generation) become plain Lean data and computable functions.
-/

namespace MikroStrict

/-- Modelled from the spec: the runtime value space of `src/index.ts`
(absent from the sources).  A record attribute holds either the absent
sentinel (`undefined` in the host language) or a present value; an
explicit `null` is a present value, distinct from the sentinel. -/
inductive Value where
  | absent
  | null
  | str (s : String)
  | num (n : Int)
  deriving DecidableEq, Repr

/-- Modelled from the spec: only the absent sentinel counts as
not-yet-populated; `null` and every other value are present. -/
def Value.isPresent : Value → Bool
  | .absent => false
  | _ => true

/-- Modelled from the spec: the relation kind of an attribute —
single-reference or multi-reference to another schema. -/
inductive RelKind where
  | singleRef
  | multiRef
  deriving DecidableEq, Repr

/-- Modelled from the spec: a relation descriptor.  The schema graph may
be cyclic, so the target schema is held by reference; the shallow
embedding realises the reference as the target's type name, resolved
against a schema graph (a name-keyed table of schemas). -/
structure RelationDescriptor where
  kind : RelKind
  target : String
  deriving DecidableEq, Repr

/-- Modelled from the spec: one attribute of a schema, with the three
backend-generation flags (primary key, generated default, version
counter) and an optional relation descriptor.  All three flags may be
set simultaneously on one attribute. -/
structure AttributeDescriptor where
  name : String
  isPrimaryKey : Bool := false
  hasGeneratedDefault : Bool := false
  isVersionCounter : Bool := false
  relation : Option RelationDescriptor := none
  deriving DecidableEq, Repr

/-- Modelled from the spec: a schema — the read-only metadata of one
record type: its type name and its ordered attribute list. -/
structure Schema where
  typeName : String
  attributes : List AttributeDescriptor
  deriving DecidableEq, Repr

/-- Modelled from the spec: the schema graph, mapping type names to
schemas; relations resolve their targets here, which permits cycles. -/
abbrev SchemaGraph := List (String × Schema)

/-- Look a schema up in the graph by type name. -/
def SchemaGraph.find (g : SchemaGraph) (n : String) : Option Schema :=
  g.lookup n

/-- Modelled from the spec: a record instance is an attribute-name-to-
value mapping; an attribute missing from the mapping reads as the absent
sentinel, exactly as a missing property reads as `undefined`. -/
abbrev RecordInstance := List (String × Value)

/-- Reading an attribute of a record instance; missing names give the
absent sentinel. -/
def RecordInstance.get (inst : RecordInstance) (n : String) : Value :=
  match inst.lookup n with
  | some v => v
  | none => .absent

/-- An attribute is backend-generated when any of the three flags is
set. -/
def AttributeDescriptor.isGenerated (a : AttributeDescriptor) : Bool :=
  a.isPrimaryKey || a.hasGeneratedDefault || a.isVersionCounter

/-- Modelled from the spec: the generated-field detector's accumulator
loop — iterate attributes in declared order, adding the name of each
qualifying attribute once, with set-like deduplication keyed by the
attribute name. -/
def generatedFieldsAux (acc : List String) : List AttributeDescriptor → List String
  | [] => acc
  | a :: rest =>
    if a.isGenerated && !(acc.contains a.name) then
      generatedFieldsAux (acc ++ [a.name]) rest
    else
      generatedFieldsAux acc rest

/-- Modelled from the spec: `generatedFields(schema)` — the deduplicated,
order-preserving list of backend-generated attribute names
(implemented in the absent `src/index.ts`). -/
def generatedFields (s : Schema) : List String :=
  generatedFieldsAux [] s.attributes

/-- Modelled from the spec: the non-throwing flush-state validator
`isFlushed` of the absent `src/index.ts` — true iff every generated
field of the schema holds a present value in the instance. -/
def isFlushed (inst : RecordInstance) (s : Schema) : Bool :=
  (generatedFields s).all fun n => (inst.get n).isPresent

/-- Modelled from the spec: the caller-supplied error context — either a
plain text message or an arbitrary structured value. -/
inductive Context where
  | str (s : String)
  | obj (fields : List (String × Value))
  deriving DecidableEq, Repr

/-- Comma-join a list of field names, as the default error message
does. -/
def joinComma : List String → String
  | [] => ""
  | [x] => x
  | x :: rest => x ++ ", " ++ joinComma rest

/-- Modelled from the spec: the default failure message — it contains
the entity name and the comma-joined undefined field names (the test
suite pins the `"<name> not flushed"` wording). -/
def defaultMessage (entityName : String) (fields : List String) : String :=
  entityName ++ " not flushed: missing " ++ joinComma fields

/-- The base error shape of the host language: a name and a message. -/
structure JsError where
  name : String
  message : String
  deriving DecidableEq, Repr

/-- Modelled from the spec: `UnflushedEntityError` of the absent
`src/index.ts` — an error carrying the entity name, the ordered list of
still-absent generated fields, and the optional caller context. -/
structure UnflushedEntityError extends JsError where
  entityName : String
  undefinedFields : List String
  context : Option Context
  deriving DecidableEq, Repr

/-- Modelled from the spec: the `UnflushedEntityError` constructor — a
string context becomes the message verbatim; otherwise the default
message is used.  The context is stored as given. -/
def UnflushedEntityError.make (entityName : String) (fields : List String)
    (ctx : Option Context) : UnflushedEntityError :=
  { name := "UnflushedEntityError"
    message :=
      match ctx with
      | some (.str m) => m
      | _ => defaultMessage entityName fields
    entityName := entityName
    undefinedFields := fields
    context := ctx }

/-- Modelled from the spec: the ordered list of generated-field names
whose value is absent in the instance — the list `assertFlushed`
reports on failure. -/
def missingFields (inst : RecordInstance) (s : Schema) : List String :=
  (generatedFields s).filter fun n => !(inst.get n).isPresent

/-- Modelled from the spec: the asserting flush-state validator
`assertFlushed` of the absent `src/index.ts` — collects the generated
fields whose value is absent and, when any exist, fails with an
`UnflushedEntityError` built from the schema name, that list and the
caller context. -/
def assertFlushed (inst : RecordInstance) (s : Schema) (ctx : Option Context) :
    Except UnflushedEntityError Unit :=
  if (missingFields inst s).isEmpty then .ok ()
  else .error (.make s.typeName (missingFields inst s) ctx)

/-- Whether an `assertFlushed` call returned normally (did not raise). -/
def didNotRaise : Except UnflushedEntityError Unit → Bool
  | .ok _ => true
  | .error _ => false

/-- Concrete schemas exercised by the test suite, used as evaluation
points below. -/
def userSchema : Schema :=
  { typeName := "User"
    attributes :=
      [ { name := "id", isPrimaryKey := true, hasGeneratedDefault := true }
      , { name := "createdAt", hasGeneratedDefault := true }
      , { name := "version", isVersionCounter := true } ] }

/-- A schema whose single attribute sets all three generation flags. -/
def edgeSchema : Schema :=
  { typeName := "Edge"
    attributes :=
      [ { name := "id", isPrimaryKey := true, hasGeneratedDefault := true,
          isVersionCounter := true } ] }

/-- A schema with zero generated fields. -/
def configSchema : Schema :=
  { typeName := "Config"
    attributes := [ { name := "key" }, { name := "value" } ] }

/-- A schema with a primary key and two plain attributes. -/
def articleSchema : Schema :=
  { typeName := "Article"
    attributes :=
      [ { name := "id", isPrimaryKey := true }
      , { name := "updatedAt", hasGeneratedDefault := true }
      , { name := "name" } ] }

theorem all_eq_isEmpty_filter_not (p : α → Bool) (l : List α) :
    l.all p = (l.filter fun x => !(p x)).isEmpty := by
  induction l with
  | nil => rfl
  | cons x xs ih => cases h : p x <;> simp [List.filter_cons, h, ih]

/-- Claim C1: for every schema, instance and context, the non-throwing
validator `isFlushed` returns `true` exactly when the asserting
validator `assertFlushed` returns without raising. -/
theorem c1_isFlushed_agrees_with_assertFlushed
    (inst : RecordInstance) (s : Schema) (ctx : Option Context) :
    isFlushed inst s = didNotRaise (assertFlushed inst s ctx) := by
  unfold isFlushed assertFlushed missingFields
  rw [all_eq_isEmpty_filter_not]
  cases h : ((generatedFields s).filter fun n => !(inst.get n).isPresent).isEmpty <;>
    simp [h, didNotRaise]

/-- Claim C2: `isFlushed` is true iff every generated-field name maps to
a present value (anything other than the absent sentinel); a schema with
zero generated fields is flushed for every instance, including the empty
one; and attributes outside the generated set never affect the
verdict. -/
theorem c2_isFlushed_characterisation :
    (∀ (inst : RecordInstance) (s : Schema),
        isFlushed inst s = true ↔
          ∀ n ∈ generatedFields s, (inst.get n).isPresent = true) ∧
    (∀ (inst : RecordInstance) (s : Schema),
        generatedFields s = [] → isFlushed inst s = true) ∧
    (∀ (s : Schema) (i1 i2 : RecordInstance),
        (∀ n ∈ generatedFields s, i1.get n = i2.get n) →
          isFlushed i1 s = isFlushed i2 s) := by
  refine ⟨fun inst s => ?_, fun inst s h => ?_, fun s i1 i2 h => ?_⟩
  · exact List.all_eq_true
  · simp [isFlushed, h]
  · unfold isFlushed
    rw [Bool.eq_iff_iff, List.all_eq_true, List.all_eq_true]
    constructor <;> intro hall n hn
    · rw [← h n hn]; exact hall n hn
    · rw [h n hn]; exact hall n hn

theorem c2_witness :
    (generatedFields configSchema = [] ∧ isFlushed [] configSchema = true) ∧
    ((∀ n ∈ generatedFields articleSchema,
        RecordInstance.get [("id", Value.str "1"), ("updatedAt", Value.null)] n =
        RecordInstance.get [("updatedAt", Value.null), ("id", Value.str "1"),
          ("name", Value.absent)] n) ∧
      isFlushed [("id", Value.str "1"), ("updatedAt", Value.null)] articleSchema =
      isFlushed [("updatedAt", Value.null), ("id", Value.str "1"),
        ("name", Value.absent)] articleSchema) :=
  ⟨⟨by decide, c2_isFlushed_characterisation.2.1 [] configSchema (by decide)⟩,
   ⟨by decide, c2_isFlushed_characterisation.2.2 articleSchema _ _ (by decide)⟩⟩

theorem generatedFieldsAux_nodup (l : List AttributeDescriptor) (acc : List String)
    (hacc : acc.Nodup) : (generatedFieldsAux acc l).Nodup := by
  induction l generalizing acc with
  | nil => simpa [generatedFieldsAux] using hacc
  | cons a rest ih =>
    unfold generatedFieldsAux
    split
    · rename_i hcond
      apply ih
      have hmem : a.name ∉ acc := by
        have := (Bool.and_eq_true ..).mp hcond |>.2
        simpa using this
      simp [List.nodup_append, hacc, hmem]
    · exact ih acc hacc

theorem generatedFieldsAux_eq (l : List AttributeDescriptor) (acc : List String)
    (hn : (l.map (·.name)).Nodup)
    (hdisj : ∀ a ∈ l, a.name ∉ acc) :
    generatedFieldsAux acc l = acc ++ (l.filter (·.isGenerated)).map (·.name) := by
  induction l generalizing acc with
  | nil => simp [generatedFieldsAux]
  | cons a rest ih =>
    have hhead : a.name ∉ acc := hdisj a (List.mem_cons_self a rest)
    have hn2 : (a.name :: rest.map (·.name)).Nodup := by simpa using hn
    have hns : a.name ∉ rest.map (·.name) := (List.nodup_cons.mp hn2).1
    have hrest : (rest.map (·.name)).Nodup := (List.nodup_cons.mp hn2).2
    unfold generatedFieldsAux
    by_cases hg : a.isGenerated = true
    · have hcond : (a.isGenerated && !(acc.contains a.name)) = true := by
        simp [hg, hhead]
      have hdisj2 : ∀ b ∈ rest, b.name ∉ acc ++ [a.name] := by
        intro b hb
        simp only [List.mem_append, List.mem_singleton]
        push_neg
        refine ⟨hdisj b (List.mem_cons_of_mem a hb), ?_⟩
        intro hEq
        exact hns (hEq ▸ List.mem_map_of_mem (·.name) hb)
      rw [if_pos hcond, ih (acc ++ [a.name]) hrest hdisj2]
      simp [List.filter_cons, hg]
    · have hg2 : a.isGenerated = false := by simpa using hg
      rw [if_neg (by simp [hg2]), ih acc hrest
        (fun b hb => hdisj b (List.mem_cons_of_mem a hb))]
      simp [List.filter_cons, hg2]

/-- Claim C3: `generatedFields` never contains a duplicate name, and —
under the schema invariant of unique attribute names — it is exactly the
names of the attributes satisfying `isPrimaryKey OR hasGeneratedDefault
OR isVersionCounter`, in declared order, one entry per qualifying
attribute regardless of how many of the three flags it sets. -/
theorem c3_generatedFields_dedup_order (s : Schema) :
    (generatedFields s).Nodup ∧
    ((s.attributes.map (·.name)).Nodup →
      generatedFields s = (s.attributes.filter (·.isGenerated)).map (·.name)) := by
  constructor
  · exact generatedFieldsAux_nodup s.attributes [] List.nodup_nil
  · intro hn
    simpa using generatedFieldsAux_eq s.attributes [] hn (by simp)

theorem c3_witness :
    (generatedFields edgeSchema).Nodup ∧
    (edgeSchema.attributes.map (·.name)).Nodup ∧
    generatedFields edgeSchema =
      (edgeSchema.attributes.filter (·.isGenerated)).map (·.name) ∧
    generatedFields edgeSchema = ["id"] :=
  ⟨(c3_generatedFields_dedup_order edgeSchema).1, by decide,
   (c3_generatedFields_dedup_order edgeSchema).2 (by decide), by decide⟩

/-- Substring containment, expressed on the underlying character
lists: `sub` occurs contiguously inside `msg`. -/
def strIn (sub msg : String) : Prop := sub.data <:+: msg.data

instance (sub msg : String) : Decidable (strIn sub msg) := by
  unfold strIn
  infer_instance

theorem strIn_joinComma {f : String} :
    ∀ {l : List String}, f ∈ l → strIn f (joinComma l)
  | [], h => absurd h (List.not_mem_nil f)
  | [x], h => by
      have hfx : f = x := by simpa using h
      subst hfx
      exact List.infix_refl _
  | x :: y :: rest, h => by
      rcases List.mem_cons.mp h with hfx | hmem
      · subst hfx
        show f.data <:+: (f ++ ", " ++ joinComma (y :: rest)).data
        rw [String.data_append, String.data_append]
        exact ⟨[], ", ".data ++ (joinComma (y :: rest)).data, by simp⟩
      · have ih : strIn f (joinComma (y :: rest)) := strIn_joinComma hmem
        refine ih.trans ?_
        show (joinComma (y :: rest)).data <:+: (x ++ ", " ++ joinComma (y :: rest)).data
        rw [String.data_append, String.data_append]
        exact ⟨x.data ++ ", ".data, [], by simp⟩

theorem strIn_defaultMessage_entity (e : String) (fs : List String) :
    strIn e (defaultMessage e fs) := by
  unfold defaultMessage strIn
  rw [String.data_append, String.data_append]
  exact ⟨[], " not flushed: missing ".data ++ (joinComma fs).data, by simp⟩

theorem strIn_defaultMessage_field (e f : String) (fs : List String) (h : f ∈ fs) :
    strIn f (defaultMessage e fs) := by
  refine (strIn_joinComma h).trans ?_
  unfold defaultMessage
  rw [String.data_append]
  exact ⟨(e ++ " not flushed: missing ").data, [], by simp⟩

/-- Claim C5: a failing `assertFlushed` (with no caller context) raises
an error carrying the schema's type name, the duplicate-free list of
absent generated-field names in declaration order, and a message that
contains the entity name and every one of those field names. -/
theorem c5_error_contents (inst : RecordInstance) (s : Schema)
    (err : UnflushedEntityError) (h : assertFlushed inst s none = .error err) :
    err.entityName = s.typeName ∧
    err.undefinedFields = missingFields inst s ∧
    err.undefinedFields.Nodup ∧
    strIn s.typeName err.message ∧
    ∀ f ∈ err.undefinedFields, strIn f err.message := by
  unfold assertFlushed at h
  split at h
  · exact absurd h (by simp)
  · have herr : err = UnflushedEntityError.make s.typeName (missingFields inst s) none := by
      injection h with h2
      exact h2.symm
    subst herr
    refine ⟨rfl, rfl, ?_, ?_, ?_⟩
    · exact (generatedFieldsAux_nodup s.attributes [] List.nodup_nil).filter _
    · exact strIn_defaultMessage_entity s.typeName (missingFields inst s)
    · intro f hf
      exact strIn_defaultMessage_field s.typeName f (missingFields inst s) hf

/-- The failing instance from the test suite: `Article` with absent
`id` and `updatedAt` and a present `name`. -/
def articleInstance : RecordInstance :=
  [("id", Value.absent), ("updatedAt", Value.absent), ("name", Value.str "test")]

/-- The error that failing call produces. -/
def articleErr : UnflushedEntityError :=
  UnflushedEntityError.make "Article" ["id", "updatedAt"] none

theorem c5_witness :
    assertFlushed articleInstance articleSchema none = .error articleErr ∧
    articleErr.entityName = "Article" ∧
    articleErr.undefinedFields = ["id", "updatedAt"] ∧
    articleErr.undefinedFields.Nodup ∧
    strIn "Article" articleErr.message ∧
    strIn "id" articleErr.message ∧
    strIn "updatedAt" articleErr.message := by
  have h := c5_error_contents articleInstance articleSchema articleErr rfl
  exact ⟨rfl, by decide, by decide, h.2.2.1,
    by decide, by decide, by decide⟩

/-- Claim C6: when `assertFlushed` fails with a caller-supplied
context, a string context becomes the error's message verbatim and is
stored in the `context` field; a structured (non-string) context leaves
the default message — which contains the entity name — and is stored in
the `context` field as the very value passed in. -/
theorem c6_context_handling (inst : RecordInstance) (s : Schema)
    (ctx : Option Context) (err : UnflushedEntityError)
    (h : assertFlushed inst s ctx = .error err) :
    (∀ m, ctx = some (Context.str m) →
      err.message = m ∧ err.context = some (Context.str m)) ∧
    (∀ v, ctx = some (Context.obj v) →
      err.message = defaultMessage s.typeName (missingFields inst s) ∧
      strIn s.typeName err.message ∧ err.context = some (Context.obj v)) := by
  unfold assertFlushed at h
  split at h
  · exact absurd h (by simp)
  · have herr : err = UnflushedEntityError.make s.typeName (missingFields inst s) ctx := by
      injection h with h2
      exact h2.symm
    subst herr
    constructor
    · intro m hm
      subst hm
      exact ⟨rfl, rfl⟩
    · intro v hv
      subst hv
      exact ⟨rfl, strIn_defaultMessage_entity s.typeName (missingFields inst s), rfl⟩

/-- The one-attribute `User` schema from the test suite. -/
def userPkSchema : Schema :=
  { typeName := "User", attributes := [ { name := "id", isPrimaryKey := true } ] }

/-- A structured context value from the test suite. -/
def opCtx : Context :=
  Context.obj [("operation", Value.str "createUser"), ("email", Value.str "a@b.com")]

theorem c6_witness :
    ((UnflushedEntityError.make "User" ["id"] (some (Context.str "Custom error message"))).message =
        "Custom error message" ∧
      (UnflushedEntityError.make "User" ["id"]
        (some (Context.str "Custom error message"))).context =
        some (Context.str "Custom error message")) ∧
    ((UnflushedEntityError.make "User" ["id"] (some opCtx)).message =
        defaultMessage "User" ["id"] ∧
      strIn "User" (UnflushedEntityError.make "User" ["id"] (some opCtx)).message ∧
      (UnflushedEntityError.make "User" ["id"] (some opCtx)).context = some opCtx) := by
  have h1 := c6_context_handling [("id", Value.absent)] userPkSchema
    (some (Context.str "Custom error message"))
    (UnflushedEntityError.make "User" ["id"] (some (Context.str "Custom error message")))
    rfl
  have h2 := c6_context_handling [("id", Value.absent)] userPkSchema (some opCtx)
    (UnflushedEntityError.make "User" ["id"] (some opCtx)) rfl
  exact ⟨h1.1 "Custom error message" rfl,
    by
      have := h2.2 _ rfl
      exact ⟨by decide, this.2.1, this.2.2⟩⟩

/-- Claim C10: the `UnflushedEntityError` constructor is public and, for
every entity name, field list and optional context, yields an error
value (its base-error projection carries the name
`"UnflushedEntityError"`) exposing the given entity name and field
list, whose message is the string context verbatim when one is given
and otherwise the default message containing the entity name and the
field names. -/
theorem c10_make_error_shape (e : String) (fs : List String) (c : Option Context) :
    (UnflushedEntityError.make e fs c).toJsError.name = "UnflushedEntityError" ∧
    (UnflushedEntityError.make e fs c).entityName = e ∧
    (UnflushedEntityError.make e fs c).undefinedFields = fs ∧
    (∀ m, c = some (Context.str m) → (UnflushedEntityError.make e fs c).message = m) ∧
    ((∀ m, c ≠ some (Context.str m)) →
      (UnflushedEntityError.make e fs c).message = defaultMessage e fs ∧
      strIn e (UnflushedEntityError.make e fs c).message ∧
      ∀ f ∈ fs, strIn f (UnflushedEntityError.make e fs c).message) := by
  refine ⟨rfl, rfl, rfl, ?_, ?_⟩
  · intro m hm
    subst hm
    rfl
  · intro hns
    have hmsg : (UnflushedEntityError.make e fs c).message = defaultMessage e fs := by
      match c with
      | none => rfl
      | some (Context.str m) => exact absurd rfl (hns m)
      | some (Context.obj v) => rfl
    refine ⟨hmsg, ?_, ?_⟩
    · rw [hmsg]
      exact strIn_defaultMessage_entity e fs
    · intro f hf
      rw [hmsg]
      exact strIn_defaultMessage_field e f fs hf

theorem c10_witness :
    (UnflushedEntityError.make "Post" ["id", "createdAt"] none).toJsError.name =
      "UnflushedEntityError" ∧
    (UnflushedEntityError.make "Post" ["id", "createdAt"] none).entityName = "Post" ∧
    (UnflushedEntityError.make "Post" ["id", "createdAt"] none).undefinedFields =
      ["id", "createdAt"] ∧
    (UnflushedEntityError.make "Post" ["id", "createdAt"] none).message =
      defaultMessage "Post" ["id", "createdAt"] ∧
    strIn "Post" (UnflushedEntityError.make "Post" ["id", "createdAt"] none).message ∧
    strIn "id" (UnflushedEntityError.make "Post" ["id", "createdAt"] none).message ∧
    strIn "createdAt" (UnflushedEntityError.make "Post" ["id", "createdAt"] none).message := by
  have h := c10_make_error_shape "Post" ["id", "createdAt"] none
  have h5 := h.2.2.2.2 (by intro m hm; cases hm)
  exact ⟨h.1, h.2.1, h.2.2.1, h5.1, h5.2.1,
    h5.2.2 "id" (by decide), h5.2.2 "createdAt" (by decide)⟩

/-- Modelled from the spec: the depth-bounded field-path generator (the
published code carries only the compile-time `FieldsFor` encoding in
the absent `src/index.ts`; its tests pin this semantics).  The depth
budget is the remaining number of relation hops: at budget zero the
wildcard and every bare attribute name remain valid; with budget left,
each relation attribute additionally contributes its name dotted with
every path of its target schema at the decremented budget.  Recursion
terminates by budget exhaustion alone — there is no visited-schema
tracking — so cyclic schema graphs are handled by truncation. -/
def fieldPaths (g : SchemaGraph) (s : Schema) : Nat → List String
  | 0 => "*" :: s.attributes.map (·.name)
  | d + 1 =>
    "*" :: s.attributes.flatMap fun a =>
      a.name ::
        (match a.relation with
         | none => []
         | some r =>
           match g.find r.target with
           | none => []
           | some t => (fieldPaths g t d).map fun p => a.name ++ "." ++ p)

/-- The valid-path grammar of the spec, as an inductive predicate: the
wildcard is valid at every level, every attribute name is valid as a
bare segment, and — while depth budget remains — a relation attribute's
name dotted with any valid path of the relation's target schema is
valid.  Nothing else is: a path mentioning a nonexistent attribute, or
extending a non-relation scalar with a nested segment, has no
derivation. -/
inductive ValidPath (g : SchemaGraph) : Schema → Nat → String → Prop where
  | star (s : Schema) (d : Nat) : ValidPath g s d "*"
  | attr {s : Schema} {a : AttributeDescriptor} (d : Nat)
      (ha : a ∈ s.attributes) : ValidPath g s d a.name
  | nested {s t : Schema} {a : AttributeDescriptor} {r : RelationDescriptor}
      {d : Nat} {q : String} (ha : a ∈ s.attributes) (hr : a.relation = some r)
      (ht : g.find r.target = some t) (hq : ValidPath g t d q) :
      ValidPath g s (d + 1) (a.name ++ "." ++ q)

/-- The self-referential schema of the spec's example:
`Node { id, next : SingleReference<Node> }`. -/
def nodeSchema : Schema :=
  { typeName := "Node"
    attributes :=
      [ { name := "id", isPrimaryKey := true }
      , { name := "next",
          relation := some { kind := RelKind.singleRef, target := "Node" } } ] }

/-- The (cyclic) one-node schema graph for the example. -/
def nodeGraph : SchemaGraph := [("Node", nodeSchema)]

/-- Claim C4: on the self-referential `Node` schema, the depth-1 path
set contains `"next.id"` and `"next.*"` but not `"next.next.id"`, the
depth-2 set contains `"next.next.id"`, and on this cyclic graph the
generator still terminates by depth-budget exhaustion alone, producing
the explicitly listed finite set at depth 3. -/
theorem c4_depth_bounded_paths :
    "next.id" ∈ fieldPaths nodeGraph nodeSchema 1 ∧
    "next.*" ∈ fieldPaths nodeGraph nodeSchema 1 ∧
    "next.next.id" ∉ fieldPaths nodeGraph nodeSchema 1 ∧
    "next.next.id" ∈ fieldPaths nodeGraph nodeSchema 2 ∧
    fieldPaths nodeGraph nodeSchema 3 =
      ["*", "id", "next", "next.*", "next.id", "next.next", "next.next.*",
       "next.next.id", "next.next.next", "next.next.next.*", "next.next.next.id",
       "next.next.next.next"] := by
  decide

/-- Claim C7: for every schema graph, schema and depth budget, the
generated path set contains the wildcard and every top-level attribute
name (scalar and relation alike), and every generated path is derivable
in the spec's valid-path grammar — so no generated path mentions a
nonexistent attribute or appends a nested segment onto a non-relation
scalar. -/
theorem c7_fieldPaths_wildcard_topLevel_sound (g : SchemaGraph) (s : Schema) (d : Nat) :
    "*" ∈ fieldPaths g s d ∧
    (∀ a ∈ s.attributes, a.name ∈ fieldPaths g s d) ∧
    (∀ p ∈ fieldPaths g s d, ValidPath g s d p) := by
  induction d generalizing s with
  | zero =>
    refine ⟨List.mem_cons_self _ _, fun a ha => ?_, fun p hp => ?_⟩
    · exact List.mem_cons_of_mem _ (List.mem_map_of_mem (·.name) ha)
    · rcases List.mem_cons.mp hp with h | h
      · exact h ▸ ValidPath.star s 0
      · rcases List.mem_map.mp h with ⟨a, ha, hEq⟩
        exact hEq ▸ ValidPath.attr 0 ha
  | succ d ih =>
    refine ⟨List.mem_cons_self _ _, fun a ha => ?_, fun p hp => ?_⟩
    · refine List.mem_cons_of_mem _ (List.mem_flatMap.mpr ⟨a, ha, ?_⟩)
      exact List.mem_cons_self _ _
    · rcases List.mem_cons.mp hp with h | h
      · exact h ▸ ValidPath.star s (d + 1)
      · rcases List.mem_flatMap.mp h with ⟨a, ha, hpa⟩
        rcases List.mem_cons.mp hpa with h2 | h2
        · exact h2 ▸ ValidPath.attr (d + 1) ha
        · cases hrel : a.relation with
          | none => simp [hrel] at h2
          | some r =>
            cases hft : SchemaGraph.find g r.target with
            | none => simp [hrel, hft] at h2
            | some t =>
              simp only [hrel, hft] at h2
              rcases List.mem_map.mp h2 with ⟨q, hq, hEq⟩
              exact hEq ▸ ValidPath.nested ha hrel hft ((ih t).2.2 q hq)

theorem c7_witness :
    "next" ∈ fieldPaths nodeGraph nodeSchema 1 ∧
    ValidPath nodeGraph nodeSchema 1 "next.id" :=
  ⟨(c7_fieldPaths_wildcard_topLevel_sound nodeGraph nodeSchema 1).2.1
      { name := "next",
        relation := some { kind := RelKind.singleRef, target := "Node" } }
      (by decide),
   (c7_fieldPaths_wildcard_topLevel_sound nodeGraph nodeSchema 1).2.2
      "next.id" (by decide)⟩

/-- Modelled from the spec: the runtime helper `fieldsFor` of the
absent `src/index.ts` — a pure identity pass-through over the selector
sequence; the entity argument participates only in compile-time typing,
and the selector validation lives in the type layer. -/
def fieldsFor (entity : String) (selectors : List String) : List String :=
  selectors

/-- Claim C8: for every entity and selector sequence, `fieldsFor`
returns exactly the given selectors, unchanged and in order, and with
zero selectors it returns the empty sequence. -/
theorem c8_fieldsFor_identity (entity : String) (selectors : List String) :
    fieldsFor entity selectors = selectors ∧ fieldsFor entity [] = [] :=
  ⟨rfl, rfl⟩

/-- Modelled from the spec: an instrumented underlying `assign` of the
persistence manager — it produces the oracle function's result and
records the exact argument tuple of the one invocation. -/
def emAssign {α β γ δ : Type} (f : α → β → Option γ → δ) (e : α) (dat : β)
    (o : Option γ) (tr : List (α × β × Option γ)) :
    δ × List (α × β × Option γ) :=
  (f e dat o, tr ++ [(e, dat, o)])

/-- Modelled from the spec: `assignStrict` of the absent `src/index.ts`
— forwards its non-schema arguments unchanged (an omitted options
argument forwards as the absent value) to the underlying `assign` and
returns its result unchanged. -/
def assignStrict {α β γ δ : Type} (f : α → β → Option γ → δ) (e : α) (dat : β)
    (o : Option γ) (tr : List (α × β × Option γ)) :
    δ × List (α × β × Option γ) :=
  emAssign f e dat o tr

/-- Modelled from the spec: an instrumented underlying `create`. -/
def emCreate {α β γ δ : Type} (f : α → β → Option γ → δ) (cls : α) (dat : β)
    (o : Option γ) (tr : List (α × β × Option γ)) :
    δ × List (α × β × Option γ) :=
  (f cls dat o, tr ++ [(cls, dat, o)])

/-- Modelled from the spec: `createStrict` of the absent `src/index.ts`
— forwards its arguments unchanged to the underlying `create` and
returns its result unchanged. -/
def createStrict {α β γ δ : Type} (f : α → β → Option γ → δ) (cls : α) (dat : β)
    (o : Option γ) (tr : List (α × β × Option γ)) :
    δ × List (α × β × Option γ) :=
  emCreate f cls dat o tr

/-- Modelled from the spec: an instrumented underlying
`getReference`. -/
def emGetReference {α β δ : Type} (f : α → β → δ) (cls : α) (pk : β)
    (tr : List (α × β)) : δ × List (α × β) :=
  (f cls pk, tr ++ [(cls, pk)])

/-- Modelled from the spec: `getStrictReference` of the absent
`src/index.ts` — forwards its arguments unchanged to the underlying
`getReference` and returns its result unchanged. -/
def getStrictReference {α β δ : Type} (f : α → β → δ) (cls : α) (pk : β)
    (tr : List (α × β)) : δ × List (α × β) :=
  emGetReference f cls pk tr

/-- Claim C9: each strict forwarding operation calls its underlying
persistence operation exactly once with the argument tuple it received
(an omitted options argument included, as the absent value) and returns
the underlying result unchanged — the recorded call trace grows by
exactly that one invocation, so each strict operation is observationally
equivalent to the operation it wraps. -/
theorem c9_strict_ops_forward {α β γ δ α2 β2 γ2 δ2 α3 β3 δ3 : Type} :
    (∀ (f : α → β → Option γ → δ) (e : α) (dat : β) (o : Option γ)
        (tr : List (α × β × Option γ)),
      assignStrict f e dat o tr = (f e dat o, tr ++ [(e, dat, o)]) ∧
      assignStrict f e dat o tr = emAssign f e dat o tr) ∧
    (∀ (f : α2 → β2 → Option γ2 → δ2) (cls : α2) (dat : β2) (o : Option γ2)
        (tr : List (α2 × β2 × Option γ2)),
      createStrict f cls dat o tr = (f cls dat o, tr ++ [(cls, dat, o)]) ∧
      createStrict f cls dat o tr = emCreate f cls dat o tr) ∧
    (∀ (f : α3 → β3 → δ3) (cls : α3) (pk : β3) (tr : List (α3 × β3)),
      getStrictReference f cls pk tr = (f cls pk, tr ++ [(cls, pk)]) ∧
      getStrictReference f cls pk tr = emGetReference f cls pk tr) :=
  ⟨fun _ _ _ _ _ => ⟨rfl, rfl⟩, fun _ _ _ _ _ => ⟨rfl, rfl⟩,
   fun _ _ _ _ => ⟨rfl, rfl⟩⟩

end MikroStrict
